import Mathlib

/-!
Shallow embedding of `importceptor` (src/importceptor/importceptor.py).

The Python module installs a hook over `__builtin__.__import__` inside a
context manager (`Importceptor`).  The hook tracks a recursion depth:
depth-0 ("first level") imports are delegated to the real importer, and
deeper imports are answered from a replacement mapping, with a strict/permissive
fallback policy, selective-attribute synthesis (`from mod import a, b`),
registration into `sys.modules`, and snapshot/diff cleanup of `sys.modules`
on exit.

Modelling choices:
  * Python values are `PyVal`: the `None` sentinel, opaque objects
    identified by a natural number, and attribute-bearing objects (`Bunch`
    instances / module-like values) carried as an attribute dictionary.
    "Identity equality" of the Python code is structural equality here,
    because the model stores and returns the very same `PyVal` terms.
  * Dictionaries (`sys.modules`, `Bunch.__dict__`, the replacement mapping)
    are association lists with Python dict semantics: assignment overwrites
    in place or appends, deletion removes the key, lookup is by exact match.
  * Exceptions are modelled with `Except PyErr`; `PyErr.keyError` is the
    `KeyError` the code raises in strict mode (the spec's
    `StrictReplacementMissing`), `PyErr.attributeError` is the
    `AttributeError` raised by `getattr` on a missing attribute (the spec's
    `AttributeNotFound`).
  * The saved real importer (`self._real_import`) is an opaque collaborator
    `RealResolver`: a pure result function plus the list of `sys.modules`
    entries a successful real import registers.  The mutable state `St`
    threads the depth counter, `sys.modules`, the installed-importer slot
    and a counter of real-importer invocations.
-/

/-- Python exceptions that the intercepted import machinery can surface. -/
inductive PyErr where
  | keyError : String → PyErr
  | attributeError : String → PyErr
  | importError : Nat → PyErr
  deriving DecidableEq, Repr

/-- Python values: the `None` sentinel, opaque objects (by id), and
attribute-bearing objects (`Bunch` instances, modules) as attribute dicts. -/
inductive PyVal where
  | pynone : PyVal
  | obj : Nat → PyVal
  | bunch : List (String × PyVal) → PyVal

/-- An attribute / module dictionary. -/
abbrev Dict := List (String × PyVal)

/-- Python dict lookup `d[k]` (as an `Option`). -/
def lookupStr (k : String) : List (String × α) → Option α
  | [] => none
  | (k', v) :: rest => if k' = k then some v else lookupStr k rest

/-- Python dict assignment `d[k] = v`: overwrite in place, append if new. -/
def setAttr (d : Dict) (k : String) (v : PyVal) : Dict :=
  match d with
  | [] => [(k, v)]
  | (k', v') :: rest => if k' = k then (k, v) :: rest else (k', v') :: setAttr rest k v

/-- Embeds `d.pop(k, None)`: remove the key, no error if absent. -/
def popMod (d : Dict) (k : String) : Dict :=
  d.filter (fun p => p.1 ≠ k)

/-- The key set of a dict (`d.keys()`), as a list read up to membership. -/
def mkeys (d : List (String × α)) : List String :=
  d.map Prod.fst

/-- Register a batch of modules into `sys.modules` (used to model the
entries a successful real import creates). -/
def registerAll (d : Dict) (adds : Dict) : Dict :=
  adds.foldl (fun acc p => setAttr acc p.1 p.2) d

/-- Embeds `getattr(v, a)` as an `Option`: `Bunch`-like values expose their dict;
opaque objects and `None` expose no attributes. -/
def getattrPy : PyVal → String → Option PyVal
  | .bunch d, a => lookupStr a d
  | _, _ => none

/-- The argument tuple of `__import__(mod_name, globals, locals, fromlist, level)`.
`globals`/`locals` are opaque (identified by a number); an absent/empty
`fromlist` is `[]` (Python tests it only for truthiness). -/
structure ImportArgs where
  mod_name : String
  globs : Nat
  locs : Nat
  fromlist : List String
  level : Int

/-- The saved real importer `self._real_import`: an opaque collaborator.
`res` is its result (or the exception it raises); `adds` is the set of
`sys.modules` entries a successful call registers. -/
structure RealResolver where
  res : ImportArgs → Except PyErr PyVal
  adds : ImportArgs → Dict

/-- Which function currently sits in the `__builtin__.__import__` slot. -/
inductive Slot where
  | real : Slot
  | handler : Slot
  deriving DecidableEq, Repr

/-- The constructor arguments of `Importceptor(replacements, unload_modules,
strict, verbose)` — immutable for the activation's lifetime. -/
structure Importceptor where
  replacements : Dict
  unload_modules : Bool
  strict : Bool
  verbose : Bool

/-- The mutable global/instance state threaded through the model:
`_depth`, `sys.modules`, the installed-importer slot, and a counter of
calls made to the saved real importer (the spec's "resolver call counter"
collaborator). -/
structure St where
  depth : Int
  modules : Dict
  slot : Slot
  realCalls : Nat

/-- Invoke the saved real importer: bump the call counter; a successful
real import registers its `adds` into `sys.modules`, a failing one raises. -/
def callReal (rr : RealResolver) (a : ImportArgs) (s : St) : Except PyErr PyVal × St :=
  match rr.res a with
  | .ok v =>
      (.ok v, { s with realCalls := s.realCalls + 1,
                       modules := registerAll s.modules (rr.adds a) })
  | .error e => (.error e, { s with realCalls := s.realCalls + 1 })

/-- Embeds `_get_replacement_for_module`: look the bare name up in the replacement
mapping; on `KeyError`, re-raise when strict, otherwise delegate to the
real importer with the same arguments. -/
def get_replacement_for_module (ic : Importceptor) (rr : RealResolver)
    (a : ImportArgs) (s : St) : Except PyErr PyVal × St :=
  match lookupStr a.mod_name ic.replacements with
  | some v => (.ok v, s)
  | none =>
      if ic.strict then (.error (.keyError a.mod_name), s)
      else callReal rr a s

/-- The loop `fake_mod.__dict__.update((name, getattr(module, name)) for name
in not_available)`: `dict.update` consumes the generator pair by pair, so
each attribute is written before the next `getattr` runs; the first missing
attribute raises `AttributeError`, leaving the earlier writes in place. -/
def bunchUpdateGetattr (base : PyVal) (d : Dict) : List String → Dict × Option PyErr
  | [] => (d, none)
  | n :: rest =>
      match getattrPy base n with
      | some v => bunchUpdateGetattr base (setAttr d n v) rest
      | none => (d, some (.attributeError n))

/-- The local `names` of `_process_import_with_from_list`:
`[(var_name, mod_name + "." + var_name) for var_name in fromlist]`. -/
def piwfl_names (a : ImportArgs) : List (String × String) :=
  a.fromlist.map (fun v => (v, a.mod_name ++ "." ++ v))

/-- The initial `fake_mod.__dict__`: the `available` pairs (those whose fully
qualified name is a replacement key, in fromlist order) mapped to their
replacement values. -/
def piwfl_fakeInit (ic : Importceptor) (a : ImportArgs) : Dict :=
  ((piwfl_names a).filter (fun p => (lookupStr p.2 ic.replacements).isSome)).filterMap
    (fun p => (lookupStr p.2 ic.replacements).map (fun v => (p.1, v)))

/-- The local `not_available`: the requested attribute names whose fully
qualified name is not a replacement key, in fromlist order. -/
def piwfl_deferred (ic : Importceptor) (a : ImportArgs) : List String :=
  ((piwfl_names a).filter (fun p => (lookupStr p.2 ic.replacements).isNone)).map Prod.fst

/-- Embeds `_process_import_with_from_list`: partition the requested attributes by
whether `mod_name + "." + attr` is in the replacement mapping, build a
`Bunch` from the explicit ones, resolve the bare name once (with an empty
fromlist, unconditionally) and copy each remaining attribute from that base
value. -/
def process_import_with_from_list (ic : Importceptor) (rr : RealResolver)
    (a : ImportArgs) (s : St) : Except PyErr PyVal × St :=
  match get_replacement_for_module ic rr { a with fromlist := [] } s with
  | (.error e, s') => (.error e, s')
  | (.ok module_, s') =>
      match bunchUpdateGetattr module_ (piwfl_fakeInit ic a) (piwfl_deferred ic a) with
      | (d, Option.none) => (.ok (.bunch d), s')
      | (_, some e) => (.error e, s')

/-- Embeds `_DepthManager` wrapped around a body: increment `_depth` on entry and
decrement it on exit, on every exit path (`with` semantics: the decrement
runs whether the body returns or raises). -/
def withDepth (body : St → Except PyErr PyVal × St) (s : St) : Except PyErr PyVal × St :=
  let s1 : St := { s with depth := s.depth + 1 }
  ((body s1).1, { (body s1).2 with depth := (body s1).2.depth - 1 })

/-- Embeds `_process_import_with_replacements`: under the depth manager, dispatch on
whether the import carries a (truthy) fromlist. -/
def process_import_with_replacements (ic : Importceptor) (rr : RealResolver)
    (a : ImportArgs) (s : St) : Except PyErr PyVal × St :=
  withDepth (fun s1 =>
    if a.fromlist ≠ [] then process_import_with_from_list ic rr a s1
    else get_replacement_for_module ic rr a s1) s

/-- Embeds `_process_first_level_import`: under the depth manager, delegate to the
real importer verbatim. -/
def process_first_level_import (rr : RealResolver) (a : ImportArgs) (s : St) :
    Except PyErr PyVal × St :=
  withDepth (fun s1 => callReal rr a s1) s

/-- Embeds `_import_handler`: `__future__` imports go straight to the real importer;
depth-0 imports are first-level passthroughs; deeper imports are answered
with replacements and the result is registered into `sys.modules`. -/
def import_handler (ic : Importceptor) (rr : RealResolver) (a : ImportArgs) (s : St) :
    Except PyErr PyVal × St :=
  if a.mod_name = "__future__" then callReal rr a s
  else if s.depth = 0 then process_first_level_import rr a s
  else
    match process_import_with_replacements ic rr a s with
    | (.ok mod_, s') => (.ok mod_, { s' with modules := setAttr s'.modules a.mod_name mod_ })
    | (.error e, s') => (.error e, s')

/-- The caller's block: a sequence of import statements handled by the hook;
the first exception aborts the rest of the block and propagates. -/
def runBlock (ic : Importceptor) (rr : RealResolver) :
    List ImportArgs → St → Except PyErr Unit × St
  | [], s => (.ok (), s)
  | a :: rest, s =>
      match import_handler ic rr a s with
      | (.ok _, s') => runBlock ic rr rest s'
      | (.error e, s') => (.error e, s')

/-- Observable steps of `__exit__`, in execution order. -/
inductive ExitEv where
  | restore : ExitEv
  | unload : String → ExitEv
  deriving DecidableEq, Repr

/-- Embeds `__exit__`: first restore the saved importer into the
`__builtin__.__import__` slot, then, when `unload_modules` is set, pop every
`sys.modules` key that is not in the pre-activation snapshot.  Returns the
final state together with the trace of steps taken, in order. -/
def ic_exit_run (ic : Importceptor) (pre : List String) (saved : Slot) (s : St) :
    St × List ExitEv :=
  let s1 := { s with slot := saved }
  if ic.unload_modules then
    let extra := (mkeys s1.modules).filter (fun k => k ∉ pre)
    ({ s1 with modules := extra.foldl popMod s1.modules },
     ExitEv.restore :: extra.map ExitEv.unload)
  else (s1, [ExitEv.restore])

/-- Embeds `__exit__` (state part only). -/
def ic_exit (ic : Importceptor) (pre : List String) (saved : Slot) (s : St) : St :=
  (ic_exit_run ic pre saved s).1

/-- One full activation: `__enter__` snapshots the `sys.modules` keys, saves
the current importer and installs the hook (`_depth` starts at 0 from the
constructor); the block runs; `__exit__` runs on both the normal and the
erroring exit, after which any exception from the block propagates. -/
def activation (ic : Importceptor) (rr : RealResolver) (calls : List ImportArgs)
    (s0 : St) : Except PyErr Unit × St :=
  let pre := mkeys s0.modules
  let saved := s0.slot
  let run := runBlock ic rr calls { s0 with slot := Slot.handler, depth := 0 }
  (run.1, ic_exit ic pre saved run.2)

/-! ## Dictionary lemmas -/

theorem lookupStr_setAttr_self (d : Dict) (k : String) (v : PyVal) :
    lookupStr k (setAttr d k v) = some v := by
  induction d with
  | nil => simp [setAttr, lookupStr]
  | cons p rest ih =>
      by_cases hp : p.1 = k
      · simp [setAttr, hp, lookupStr]
      · simp [setAttr, hp, lookupStr, ih]

theorem lookupStr_setAttr_ne (d : Dict) {k k' : String} (v : PyVal) (h : k' ≠ k) :
    lookupStr k' (setAttr d k v) = lookupStr k' d := by
  have hk : ¬ k = k' := fun h' => h h'.symm
  induction d with
  | nil => simp [setAttr, lookupStr, hk]
  | cons p rest ih =>
      by_cases hp : p.1 = k
      · simp [setAttr, hp, lookupStr, hk]
      · simp [setAttr, hp, lookupStr, ih]

theorem mem_mkeys_setAttr (d : Dict) (k k' : String) (v : PyVal) :
    k' ∈ mkeys (setAttr d k v) ↔ k' = k ∨ k' ∈ mkeys d := by
  induction d with
  | nil => simp [setAttr, mkeys]
  | cons p rest ih =>
      obtain ⟨k1, v1⟩ := p
      by_cases hp : k1 = k
      · subst hp
        have e : setAttr ((k1, v1) :: rest) k1 v = (k1, v) :: rest := by
          simp [setAttr]
        rw [e]
        simp only [mkeys, List.map_cons, List.mem_cons]
        tauto
      · have e : setAttr ((k1, v1) :: rest) k v = (k1, v1) :: setAttr rest k v := by
          simp [setAttr, hp]
        rw [e]
        simp only [mkeys, List.map_cons, List.mem_cons] at ih ⊢
        rw [ih]
        tauto

theorem mem_mkeys_registerAll (d adds : Dict) (k : String) (h : k ∈ mkeys d) :
    k ∈ mkeys (registerAll d adds) := by
  induction adds generalizing d with
  | nil => simpa [registerAll] using h
  | cons p rest ih =>
      simp only [registerAll, List.foldl_cons] at *
      exact ih _ ((mem_mkeys_setAttr _ _ _ _).2 (Or.inr h))

theorem mem_mkeys_popMod (d : Dict) (k k' : String) :
    k' ∈ mkeys (popMod d k) ↔ k' ∈ mkeys d ∧ k' ≠ k := by
  simp only [popMod, mkeys, List.mem_map, List.mem_filter]
  constructor
  · rintro ⟨p, ⟨hp, hne⟩, rfl⟩
    exact ⟨⟨p, hp, rfl⟩, by simpa using hne⟩
  · rintro ⟨⟨p, hp, rfl⟩, hne⟩
    exact ⟨p, ⟨hp, by simpa using hne⟩, rfl⟩

theorem lookupStr_popMod_ne (d : Dict) {k k' : String} (h : k' ≠ k) :
    lookupStr k' (popMod d k) = lookupStr k' d := by
  induction d with
  | nil => rfl
  | cons p rest ih =>
      obtain ⟨k1, v1⟩ := p
      by_cases hp : k1 = k
      · have h1 : ¬ k1 = k' := by rw [hp]; exact fun h' => h h'.symm
        have e : popMod ((k1, v1) :: rest) k = popMod rest k := by
          simp [popMod, List.filter_cons, hp]
        rw [e, ih]
        simp [lookupStr, h1]
      · have e : popMod ((k1, v1) :: rest) k = (k1, v1) :: popMod rest k := by
          simp [popMod, List.filter_cons, hp]
        rw [e]
        by_cases hk' : k1 = k'
        · simp [lookupStr, hk']
        · simp [lookupStr, hk', ih]

theorem mem_mkeys_foldl_popMod (L : List String) (d : Dict) (k : String) :
    k ∈ mkeys (L.foldl popMod d) ↔ k ∈ mkeys d ∧ k ∉ L := by
  induction L generalizing d with
  | nil => simp
  | cons x rest ih =>
      simp only [List.foldl_cons, ih, mem_mkeys_popMod, List.mem_cons]
      tauto

theorem lookupStr_foldl_popMod (L : List String) (d : Dict) {k : String} (h : k ∉ L) :
    lookupStr k (L.foldl popMod d) = lookupStr k d := by
  induction L generalizing d with
  | nil => simp
  | cons x rest ih =>
      simp only [List.mem_cons, not_or] at h
      rw [List.foldl_cons, ih _ h.2, lookupStr_popMod_ne _ h.1]

/-! ## State-effect lemmas for the import machinery -/

theorem callReal_fst (rr : RealResolver) (a : ImportArgs) (s : St) :
    (callReal rr a s).1 = rr.res a := by
  unfold callReal
  cases rr.res a <;> rfl

theorem callReal_depth (rr : RealResolver) (a : ImportArgs) (s : St) :
    (callReal rr a s).2.depth = s.depth := by
  unfold callReal
  cases rr.res a <;> rfl

theorem callReal_slot (rr : RealResolver) (a : ImportArgs) (s : St) :
    (callReal rr a s).2.slot = s.slot := by
  unfold callReal
  cases rr.res a <;> rfl

theorem callReal_realCalls (rr : RealResolver) (a : ImportArgs) (s : St) :
    (callReal rr a s).2.realCalls = s.realCalls + 1 := by
  unfold callReal
  cases rr.res a <;> rfl

theorem callReal_keys (rr : RealResolver) (a : ImportArgs) (s : St) (k : String)
    (h : k ∈ mkeys s.modules) : k ∈ mkeys (callReal rr a s).2.modules := by
  unfold callReal
  cases rr.res a with
  | ok v => exact mem_mkeys_registerAll _ _ _ h
  | error e => exact h

theorem grfm_some (ic : Importceptor) (rr : RealResolver) (a : ImportArgs) (s : St)
    {v : PyVal} (h : lookupStr a.mod_name ic.replacements = some v) :
    get_replacement_for_module ic rr a s = (.ok v, s) := by
  simp [get_replacement_for_module, h]

theorem grfm_none_strict (ic : Importceptor) (rr : RealResolver) (a : ImportArgs) (s : St)
    (h : lookupStr a.mod_name ic.replacements = none) (hs : ic.strict = true) :
    get_replacement_for_module ic rr a s = (.error (.keyError a.mod_name), s) := by
  simp [get_replacement_for_module, h, hs]

theorem grfm_none_fallback (ic : Importceptor) (rr : RealResolver) (a : ImportArgs) (s : St)
    (h : lookupStr a.mod_name ic.replacements = none) (hs : ic.strict = false) :
    get_replacement_for_module ic rr a s = callReal rr a s := by
  simp [get_replacement_for_module, h, hs]

theorem grfm_depth (ic : Importceptor) (rr : RealResolver) (a : ImportArgs) (s : St) :
    (get_replacement_for_module ic rr a s).2.depth = s.depth := by
  unfold get_replacement_for_module
  cases lookupStr a.mod_name ic.replacements with
  | some v => rfl
  | none =>
      by_cases hs : ic.strict <;> simp [hs, callReal_depth]

theorem grfm_slot (ic : Importceptor) (rr : RealResolver) (a : ImportArgs) (s : St) :
    (get_replacement_for_module ic rr a s).2.slot = s.slot := by
  unfold get_replacement_for_module
  cases lookupStr a.mod_name ic.replacements with
  | some v => rfl
  | none =>
      by_cases hs : ic.strict <;> simp [hs, callReal_slot]

theorem grfm_keys (ic : Importceptor) (rr : RealResolver) (a : ImportArgs) (s : St)
    (k : String) (h : k ∈ mkeys s.modules) :
    k ∈ mkeys (get_replacement_for_module ic rr a s).2.modules := by
  unfold get_replacement_for_module
  cases lookupStr a.mod_name ic.replacements with
  | some v => exact h
  | none =>
      by_cases hs : ic.strict
      · simpa [hs] using h
      · simpa [hs] using callReal_keys rr a s k h

theorem piwfl_snd (ic : Importceptor) (rr : RealResolver) (a : ImportArgs) (s : St) :
    (process_import_with_from_list ic rr a s).2 =
      (get_replacement_for_module ic rr { a with fromlist := [] } s).2 := by
  unfold process_import_with_from_list
  split
  · next e s' heq => rw [heq]
  · next module_ s' heq =>
      rw [heq]
      dsimp only
      split
      · rfl
      · rfl

theorem withDepth_fst (body : St → Except PyErr PyVal × St) (s : St) :
    (withDepth body s).1 = (body { s with depth := s.depth + 1 }).1 := rfl

theorem withDepth_depth (body : St → Except PyErr PyVal × St) (s : St)
    (h : ∀ t, (body t).2.depth = t.depth) : (withDepth body s).2.depth = s.depth := by
  simp [withDepth, h]

theorem withDepth_slot (body : St → Except PyErr PyVal × St) (s : St)
    (h : ∀ t, (body t).2.slot = t.slot) : (withDepth body s).2.slot = s.slot := by
  simp [withDepth, h]

theorem withDepth_keys (body : St → Except PyErr PyVal × St) (s : St) (k : String)
    (h : ∀ t, k ∈ mkeys t.modules → k ∈ mkeys (body t).2.modules)
    (hk : k ∈ mkeys s.modules) : k ∈ mkeys (withDepth body s).2.modules := by
  simpa [withDepth] using h { s with depth := s.depth + 1 } hk

theorem piwr_body_depth (ic : Importceptor) (rr : RealResolver) (a : ImportArgs) (t : St) :
    ((if a.fromlist ≠ [] then process_import_with_from_list ic rr a t
      else get_replacement_for_module ic rr a t)).2.depth = t.depth := by
  by_cases hf : a.fromlist = []
  · simp [hf, grfm_depth]
  · simp only [hf, ne_eq, not_false_iff, if_true]
    rw [piwfl_snd, grfm_depth]

theorem piwr_depth (ic : Importceptor) (rr : RealResolver) (a : ImportArgs) (s : St) :
    (process_import_with_replacements ic rr a s).2.depth = s.depth := by
  unfold process_import_with_replacements
  exact withDepth_depth _ _ (piwr_body_depth ic rr a)

theorem piwr_slot (ic : Importceptor) (rr : RealResolver) (a : ImportArgs) (s : St) :
    (process_import_with_replacements ic rr a s).2.slot = s.slot := by
  unfold process_import_with_replacements
  refine withDepth_slot _ _ (fun t => ?_)
  by_cases hf : a.fromlist = []
  · simp [hf, grfm_slot]
  · simp only [hf, ne_eq, not_false_iff, if_true]
    rw [piwfl_snd, grfm_slot]

theorem piwr_keys (ic : Importceptor) (rr : RealResolver) (a : ImportArgs) (s : St)
    (k : String) (h : k ∈ mkeys s.modules) :
    k ∈ mkeys (process_import_with_replacements ic rr a s).2.modules := by
  unfold process_import_with_replacements
  refine withDepth_keys _ _ _ (fun t ht => ?_) h
  by_cases hf : a.fromlist = []
  · simpa [hf] using grfm_keys ic rr a t k ht
  · simp only [hf, ne_eq, not_false_iff, if_true]
    rw [piwfl_snd]
    exact grfm_keys ic rr _ t k ht

theorem import_handler_depth (ic : Importceptor) (rr : RealResolver) (a : ImportArgs)
    (s : St) : (import_handler ic rr a s).2.depth = s.depth := by
  unfold import_handler
  by_cases hf : a.mod_name = "__future__"
  · rw [if_pos hf]
    exact callReal_depth rr a s
  · by_cases hd : s.depth = 0
    · rw [if_neg hf, if_pos hd]
      unfold process_first_level_import
      exact withDepth_depth _ _ (fun t => callReal_depth rr a t)
    · rw [if_neg hf, if_neg hd]
      have hp := piwr_depth ic rr a s
      split
      · next m s' heq => rw [heq] at hp; exact hp
      · next e s' heq => rw [heq] at hp; exact hp

theorem import_handler_slot (ic : Importceptor) (rr : RealResolver) (a : ImportArgs)
    (s : St) : (import_handler ic rr a s).2.slot = s.slot := by
  unfold import_handler
  by_cases hf : a.mod_name = "__future__"
  · rw [if_pos hf]
    exact callReal_slot rr a s
  · by_cases hd : s.depth = 0
    · rw [if_neg hf, if_pos hd]
      unfold process_first_level_import
      exact withDepth_slot _ _ (fun t => callReal_slot rr a t)
    · rw [if_neg hf, if_neg hd]
      have hp := piwr_slot ic rr a s
      split
      · next m s' heq => rw [heq] at hp; exact hp
      · next e s' heq => rw [heq] at hp; exact hp

theorem import_handler_keys (ic : Importceptor) (rr : RealResolver) (a : ImportArgs)
    (s : St) (k : String) (h : k ∈ mkeys s.modules) :
    k ∈ mkeys (import_handler ic rr a s).2.modules := by
  unfold import_handler
  by_cases hf : a.mod_name = "__future__"
  · rw [if_pos hf]
    exact callReal_keys rr a s k h
  · by_cases hd : s.depth = 0
    · rw [if_neg hf, if_pos hd]
      unfold process_first_level_import
      exact withDepth_keys _ _ _ (fun t ht => callReal_keys rr a t k ht) h
    · rw [if_neg hf, if_neg hd]
      have hp := piwr_keys ic rr a s k h
      split
      · next m s' heq =>
          rw [heq] at hp
          exact (mem_mkeys_setAttr _ _ _ _).2 (Or.inr hp)
      · next e s' heq => rw [heq] at hp; exact hp

theorem runBlock_depth (ic : Importceptor) (rr : RealResolver) (calls : List ImportArgs)
    (s : St) : (runBlock ic rr calls s).2.depth = s.depth := by
  induction calls generalizing s with
  | nil => rfl
  | cons a rest ih =>
      unfold runBlock
      have hh := import_handler_depth ic rr a s
      split
      · next m s' heq => rw [heq] at hh; rw [ih]; exact hh
      · next e s' heq => rw [heq] at hh; exact hh

theorem runBlock_slot (ic : Importceptor) (rr : RealResolver) (calls : List ImportArgs)
    (s : St) : (runBlock ic rr calls s).2.slot = s.slot := by
  induction calls generalizing s with
  | nil => rfl
  | cons a rest ih =>
      unfold runBlock
      have hh := import_handler_slot ic rr a s
      split
      · next m s' heq => rw [heq] at hh; rw [ih]; exact hh
      · next e s' heq => rw [heq] at hh; exact hh

theorem runBlock_keys (ic : Importceptor) (rr : RealResolver) (calls : List ImportArgs)
    (s : St) (k : String) (h : k ∈ mkeys s.modules) :
    k ∈ mkeys (runBlock ic rr calls s).2.modules := by
  induction calls generalizing s with
  | nil => exact h
  | cons a rest ih =>
      unfold runBlock
      have hh := import_handler_keys ic rr a s k h
      split
      · next m s' heq => rw [heq] at hh; exact ih _ hh
      · next e s' heq => rw [heq] at hh; exact hh

/-! ## `__exit__` lemmas -/

theorem ic_exit_slot (ic : Importceptor) (pre : List String) (saved : Slot) (s : St) :
    (ic_exit ic pre saved s).slot = saved := by
  unfold ic_exit ic_exit_run
  by_cases hu : ic.unload_modules <;> simp [hu]

theorem ic_exit_depth (ic : Importceptor) (pre : List String) (saved : Slot) (s : St) :
    (ic_exit ic pre saved s).depth = s.depth := by
  unfold ic_exit ic_exit_run
  by_cases hu : ic.unload_modules <;> simp [hu]

theorem mem_mkeys_ic_exit (ic : Importceptor) (pre : List String) (saved : Slot) (s : St)
    (hu : ic.unload_modules = true) (k : String) :
    k ∈ mkeys (ic_exit ic pre saved s).modules ↔ k ∈ mkeys s.modules ∧ k ∈ pre := by
  unfold ic_exit ic_exit_run
  dsimp only
  rw [if_pos hu]
  dsimp only
  rw [mem_mkeys_foldl_popMod]
  constructor
  · rintro ⟨hm, hnot⟩
    simp only [List.mem_filter, decide_eq_true_eq] at hnot
    by_cases hp : k ∈ pre
    · exact ⟨hm, hp⟩
    · exact absurd ⟨hm, hp⟩ hnot
  · rintro ⟨hm, hp⟩
    refine ⟨hm, ?_⟩
    simp only [List.mem_filter, decide_eq_true_eq]
    rintro ⟨-, hnp⟩
    exact hnp hp

theorem lookupStr_ic_exit_of_mem_pre (ic : Importceptor) (pre : List String) (saved : Slot)
    (s : St) {k : String} (hp : k ∈ pre) :
    lookupStr k (ic_exit ic pre saved s).modules = lookupStr k s.modules := by
  unfold ic_exit ic_exit_run
  dsimp only
  by_cases hu : ic.unload_modules
  · rw [if_pos hu]
    dsimp only
    refine lookupStr_foldl_popMod _ _ (fun hc => ?_)
    simp only [List.mem_filter, decide_eq_true_eq] at hc
    exact hc.2 hp
  · rw [if_neg hu]

/-! ## Characterization lemmas -/

theorem withDepth_realCalls (body : St → Except PyErr PyVal × St) (s : St) :
    (withDepth body s).2.realCalls = (body { s with depth := s.depth + 1 }).2.realCalls := rfl

theorem withDepth_modules (body : St → Except PyErr PyVal × St) (s : St) :
    (withDepth body s).2.modules = (body { s with depth := s.depth + 1 }).2.modules := rfl

theorem import_handler_fst_deep (ic : Importceptor) (rr : RealResolver) (a : ImportArgs)
    (s : St) (hf : ¬ a.mod_name = "__future__") (hd : ¬ s.depth = 0) :
    (import_handler ic rr a s).1 = (process_import_with_replacements ic rr a s).1 := by
  unfold import_handler
  rw [if_neg hf, if_neg hd]
  split
  · next m s' heq => rw [heq]
  · next e s' heq => rw [heq]

theorem import_handler_realCalls_deep (ic : Importceptor) (rr : RealResolver)
    (a : ImportArgs) (s : St) (hf : ¬ a.mod_name = "__future__") (hd : ¬ s.depth = 0) :
    (import_handler ic rr a s).2.realCalls =
      (process_import_with_replacements ic rr a s).2.realCalls := by
  unfold import_handler
  rw [if_neg hf, if_neg hd]
  split
  · next m s' heq => rw [heq]
  · next e s' heq => rw [heq]

theorem piwr_fst (ic : Importceptor) (rr : RealResolver) (a : ImportArgs) (s : St) :
    (process_import_with_replacements ic rr a s).1 =
      (if a.fromlist ≠ [] then
         process_import_with_from_list ic rr a { s with depth := s.depth + 1 }
       else get_replacement_for_module ic rr a { s with depth := s.depth + 1 }).1 := rfl

theorem piwr_realCalls (ic : Importceptor) (rr : RealResolver) (a : ImportArgs) (s : St) :
    (process_import_with_replacements ic rr a s).2.realCalls =
      (if a.fromlist ≠ [] then
         process_import_with_from_list ic rr a { s with depth := s.depth + 1 }
       else get_replacement_for_module ic rr a { s with depth := s.depth + 1 }).2.realCalls := rfl

theorem piwfl_of_base_some (ic : Importceptor) (rr : RealResolver) (a : ImportArgs)
    (s : St) {M : PyVal} (hbase : lookupStr a.mod_name ic.replacements = some M) :
    process_import_with_from_list ic rr a s =
      (match bunchUpdateGetattr M (piwfl_fakeInit ic a) (piwfl_deferred ic a) with
       | (d, Option.none) => (Except.ok (PyVal.bunch d), s)
       | (_, some e) => (Except.error e, s)) := by
  unfold process_import_with_from_list
  rw [grfm_some ic rr { a with fromlist := [] } s hbase]

theorem bunchUpdateGetattr_fails (base : PyVal) (L : List String) (d : Dict)
    (h : ∃ x ∈ L, getattrPy base x = none) :
    ∃ m, getattrPy base m = none ∧
      (bunchUpdateGetattr base d L).2 = some (PyErr.attributeError m) := by
  induction L generalizing d with
  | nil =>
      rcases h with ⟨x, hx, _⟩
      cases hx
  | cons y rest ih =>
      cases hg : getattrPy base y with
      | some v =>
          have hrest : ∃ x ∈ rest, getattrPy base x = none := by
            rcases h with ⟨x, hx, hxn⟩
            rcases List.mem_cons.mp hx with h1 | h2
            · rw [h1, hg] at hxn
              cases hxn
            · exact ⟨x, h2, hxn⟩
          simpa [bunchUpdateGetattr, hg] using ih (setAttr d y v) hrest
      | none =>
          exact ⟨y, hg, by simp [bunchUpdateGetattr, hg]⟩

theorem mem_piwfl_deferred (ic : Importceptor) (a : ImportArgs) {n : String}
    (hn : n ∈ a.fromlist)
    (hq : lookupStr (a.mod_name ++ "." ++ n) ic.replacements = none) :
    n ∈ piwfl_deferred ic a := by
  unfold piwfl_deferred piwfl_names
  have h1 : (n, a.mod_name ++ "." ++ n) ∈
      a.fromlist.map (fun v => (v, a.mod_name ++ "." ++ v)) :=
    List.mem_map_of_mem _ hn
  have h2 : (n, a.mod_name ++ "." ++ n) ∈
      (a.fromlist.map (fun v => (v, a.mod_name ++ "." ++ v))).filter
        (fun p => (lookupStr p.2 ic.replacements).isNone) :=
    List.mem_filter.mpr ⟨h1, by simp [hq]⟩
  exact List.mem_map_of_mem Prod.fst h2

theorem piwr_bare_some (ic : Importceptor) (rr : RealResolver) (a : ImportArgs) (s : St)
    {v : PyVal} (hl : a.fromlist = [])
    (hv : lookupStr a.mod_name ic.replacements = some v) :
    process_import_with_replacements ic rr a s =
      (Except.ok v, { s with depth := s.depth + 1 - 1 }) := by
  unfold process_import_with_replacements withDepth
  dsimp only
  rw [if_neg (show ¬ a.fromlist ≠ [] from fun hc => hc hl)]
  rw [grfm_some ic rr a _ hv]

theorem piwr_bare_none_strict (ic : Importceptor) (rr : RealResolver) (a : ImportArgs)
    (s : St) (hl : a.fromlist = [])
    (hv : lookupStr a.mod_name ic.replacements = none) (hs : ic.strict = true) :
    process_import_with_replacements ic rr a s =
      (Except.error (.keyError a.mod_name), { s with depth := s.depth + 1 - 1 }) := by
  unfold process_import_with_replacements withDepth
  dsimp only
  rw [if_neg (show ¬ a.fromlist ≠ [] from fun hc => hc hl)]
  rw [grfm_none_strict ic rr a _ hv hs]

theorem piwr_bare_none_fallback (ic : Importceptor) (rr : RealResolver) (a : ImportArgs)
    (s : St) (hl : a.fromlist = [])
    (hv : lookupStr a.mod_name ic.replacements = none) (hs : ic.strict = false) :
    process_import_with_replacements ic rr a s =
      withDepth (fun s1 => callReal rr a s1) s := by
  unfold process_import_with_replacements withDepth
  dsimp only
  rw [if_neg (show ¬ a.fromlist ≠ [] from fun hc => hc hl)]
  rw [grfm_none_fallback ic rr a _ hv hs]

theorem import_handler_deep_bare_some (ic : Importceptor) (rr : RealResolver)
    (a : ImportArgs) (s : St) {v : PyVal} (hf : ¬ a.mod_name = "__future__")
    (hd : ¬ s.depth = 0) (hl : a.fromlist = [])
    (hv : lookupStr a.mod_name ic.replacements = some v) :
    (import_handler ic rr a s).1 = Except.ok v ∧
    (import_handler ic rr a s).2.modules = setAttr s.modules a.mod_name v ∧
    (import_handler ic rr a s).2.realCalls = s.realCalls := by
  unfold import_handler
  rw [if_neg hf, if_neg hd, piwr_bare_some ic rr a s hl hv]
  exact ⟨rfl, rfl, rfl⟩

theorem import_handler_deep_bare_none_strict (ic : Importceptor) (rr : RealResolver)
    (a : ImportArgs) (s : St) (hf : ¬ a.mod_name = "__future__")
    (hd : ¬ s.depth = 0) (hl : a.fromlist = [])
    (hv : lookupStr a.mod_name ic.replacements = none) (hs : ic.strict = true) :
    (import_handler ic rr a s).1 = Except.error (.keyError a.mod_name) ∧
    (import_handler ic rr a s).2.modules = s.modules ∧
    (import_handler ic rr a s).2.realCalls = s.realCalls := by
  unfold import_handler
  rw [if_neg hf, if_neg hd, piwr_bare_none_strict ic rr a s hl hv hs]
  exact ⟨rfl, rfl, rfl⟩

theorem import_handler_deep_bare_none_fallback (ic : Importceptor) (rr : RealResolver)
    (a : ImportArgs) (s : St) (hf : ¬ a.mod_name = "__future__")
    (hd : ¬ s.depth = 0) (hl : a.fromlist = [])
    (hv : lookupStr a.mod_name ic.replacements = none) (hs : ic.strict = false) :
    (import_handler ic rr a s).1 = rr.res a ∧
    (import_handler ic rr a s).2.realCalls = s.realCalls + 1 := by
  have h1 := import_handler_fst_deep ic rr a s hf hd
  have h2 := import_handler_realCalls_deep ic rr a s hf hd
  rw [piwr_bare_none_fallback ic rr a s hl hv hs] at h1 h2
  constructor
  · rw [h1, withDepth_fst]
    exact callReal_fst rr a _
  · rw [h2, withDepth_realCalls]
    exact callReal_realCalls rr a _

/-! ## Claim theorems -/

/-- C4: a resolution arriving at the hook while depth is 0 delegates to the
saved real importer with the same arguments and returns its result
unmodified (one real call), leaves the depth unchanged, and behaves
identically for any two replacement mappings — the mapping is never
consulted, so the result is never a substitute regardless of its
contents. -/
theorem first_level_passthrough (ic ic' : Importceptor) (rr : RealResolver)
    (a : ImportArgs) (s : St) (hd : s.depth = 0) :
    (import_handler ic rr a s).1 = rr.res a ∧
    (import_handler ic rr a s).2.realCalls = s.realCalls + 1 ∧
    (import_handler ic rr a s).2.depth = s.depth ∧
    import_handler ic rr a s = import_handler ic' rr a s := by
  have main : ∀ ic0 : Importceptor, (import_handler ic0 rr a s).1 = rr.res a ∧
      (import_handler ic0 rr a s).2.realCalls = s.realCalls + 1 := by
    intro ic0
    unfold import_handler
    by_cases hf : a.mod_name = "__future__"
    · rw [if_pos hf]
      exact ⟨callReal_fst rr a s, callReal_realCalls rr a s⟩
    · rw [if_neg hf, if_pos hd]
      unfold process_first_level_import
      constructor
      · rw [withDepth_fst]
        exact callReal_fst rr a _
      · rw [withDepth_realCalls]
        exact callReal_realCalls rr a _
  refine ⟨(main ic).1, (main ic).2, import_handler_depth ic rr a s, ?_⟩
  unfold import_handler
  by_cases hf : a.mod_name = "__future__"
  · simp only [if_pos hf]
  · simp only [if_neg hf, if_pos hd]

/-- C4 witness: a depth-0 acquisition of `"alpha"` with `R = {"alpha": X}`
yields the real importer's result, not `X`. -/
theorem first_level_passthrough_witness :
    (import_handler ⟨[("alpha", PyVal.obj 5)], true, false, false⟩
        ⟨fun _ => Except.ok (PyVal.obj 9), fun _ => []⟩
        ⟨"alpha", 0, 0, [], -1⟩ ⟨0, [], Slot.handler, 0⟩).1 =
      Except.ok (PyVal.obj 9) := by
  have h := first_level_passthrough ⟨[("alpha", PyVal.obj 5)], true, false, false⟩
    ⟨[], true, false, false⟩
    ⟨fun _ => Except.ok (PyVal.obj 9), fun _ => []⟩
    ⟨"alpha", 0, 0, [], -1⟩ ⟨0, [], Slot.handler, 0⟩ rfl
  exact h.1

/-- C5: bare-name resolution at depth > 0: a mapped name returns the mapped
value verbatim; an unmapped name under `strict` raises the
`StrictReplacementMissing` error (`KeyError`) with no real-importer call;
an unmapped name without `strict` delegates to the real importer with the
same arguments (exactly one call) and returns its result unmodified. -/
theorem bare_name_resolution_policy (ic : Importceptor) (rr : RealResolver)
    (a : ImportArgs) (s : St) (hd : ¬ s.depth = 0)
    (hf : ¬ a.mod_name = "__future__") (hl : a.fromlist = []) :
    (∀ v, lookupStr a.mod_name ic.replacements = some v →
        (import_handler ic rr a s).1 = Except.ok v) ∧
    (lookupStr a.mod_name ic.replacements = none → ic.strict = true →
        (import_handler ic rr a s).1 = Except.error (.keyError a.mod_name) ∧
        (import_handler ic rr a s).2.realCalls = s.realCalls) ∧
    (lookupStr a.mod_name ic.replacements = none → ic.strict = false →
        (import_handler ic rr a s).1 = rr.res a ∧
        (import_handler ic rr a s).2.realCalls = s.realCalls + 1) :=
  ⟨fun _ hv => (import_handler_deep_bare_some ic rr a s hf hd hl hv).1,
   fun hv hs => ⟨(import_handler_deep_bare_none_strict ic rr a s hf hd hl hv hs).1,
                 (import_handler_deep_bare_none_strict ic rr a s hf hd hl hv hs).2.2⟩,
   fun hv hs => import_handler_deep_bare_none_fallback ic rr a s hf hd hl hv hs⟩

/-- C5 witness: at depth 1, `R = {"alpha": None}` returns the null sentinel
verbatim for `"alpha"` (the strict and fallback clauses hold vacuously at
this input since the name is mapped). -/
theorem bare_name_resolution_policy_witness :
    (import_handler ⟨[("alpha", PyVal.pynone)], true, true, false⟩
        ⟨fun _ => Except.ok (PyVal.obj 9), fun _ => []⟩
        ⟨"alpha", 0, 0, [], -1⟩ ⟨1, [], Slot.handler, 0⟩).1 =
      Except.ok PyVal.pynone := by
  have h := bare_name_resolution_policy ⟨[("alpha", PyVal.pynone)], true, true, false⟩
    ⟨fun _ => Except.ok (PyVal.obj 9), fun _ => []⟩
    ⟨"alpha", 0, 0, [], -1⟩ ⟨1, [], Slot.handler, 0⟩
    (by decide) (by decide) rfl
  exact h.1 PyVal.pynone rfl

/-- C6: on every exit, the saved importer is restored into the global slot
unconditionally; the restoration is the first step of `__exit__`, before
any conditional registry unloading (the trace is `restore` followed only by
`unload` events), and the restored slot survives the whole activation, both
on normal and on erroring exits. -/
theorem exit_restores_importer_first :
    (∀ (ic : Importceptor) (pre : List String) (saved : Slot) (s : St),
        (ic_exit_run ic pre saved s).1.slot = saved ∧
        ∃ names : List String, (ic_exit_run ic pre saved s).2 =
          ExitEv.restore :: names.map ExitEv.unload) ∧
    (∀ (ic : Importceptor) (rr : RealResolver) (calls : List ImportArgs) (s0 : St),
        (activation ic rr calls s0).2.slot = s0.slot) := by
  constructor
  · intro ic pre saved s
    constructor
    · exact ic_exit_slot ic pre saved s
    · unfold ic_exit_run
      dsimp only
      by_cases hu : ic.unload_modules
      · rw [if_pos hu]
        exact ⟨_, rfl⟩
      · rw [if_neg hu]
        exact ⟨[], rfl⟩
  · intro ic rr calls s0
    unfold activation
    dsimp only
    rw [ic_exit_slot]

/-- C7: the depth counter is restored around every dispatch of the hook, on
both the normal and the raising path (the statement makes no assumption on
the dispatch result); it is likewise restored across any block of
acquisitions, and a full activation ends with depth 0, so a counter that
starts non-negative stays non-negative at every dispatch boundary. -/
theorem depth_counter_matched (ic : Importceptor) (rr : RealResolver) :
    (∀ a s, (import_handler ic rr a s).2.depth = s.depth) ∧
    (∀ calls s, (runBlock ic rr calls s).2.depth = s.depth) ∧
    (∀ calls s0, (activation ic rr calls s0).2.depth = 0) ∧
    (∀ a s, 0 ≤ s.depth → 0 ≤ (import_handler ic rr a s).2.depth) := by
  refine ⟨import_handler_depth ic rr, runBlock_depth ic rr, fun calls s0 => ?_,
          fun a s h => ?_⟩
  · unfold activation
    dsimp only
    rw [ic_exit_depth, runBlock_depth]
  · rw [import_handler_depth]
    exact h

/-- C2: with `unload_modules` set, the key set of `sys.modules` after a full
activation (enter, any block of acquisitions, exit) equals the key set of
the pre-activation snapshot; `activation` applies `__exit__` to the block's
final state whether the block ended normally or with a propagating
exception, so the equality holds on both exit paths. -/
theorem unload_restores_registry_keys (ic : Importceptor)
    (hu : ic.unload_modules = true) (rr : RealResolver) (calls : List ImportArgs)
    (s0 : St) (k : String) :
    k ∈ mkeys (activation ic rr calls s0).2.modules ↔ k ∈ mkeys s0.modules := by
  unfold activation
  dsimp only
  rw [mem_mkeys_ic_exit _ _ _ _ hu]
  constructor
  · exact fun h => h.2
  · intro h
    exact ⟨runBlock_keys ic rr calls _ k h, h⟩

/-- C2 witness: an activation that imports `"alpha"` (registering it via the
real importer) on top of a registry holding only `"pre"` leaves `"alpha"`
absent again after exit. -/
theorem unload_restores_registry_keys_witness :
    ("alpha" ∈ mkeys (activation ⟨[("beta", PyVal.obj 1)], true, false, false⟩
        ⟨fun _ => Except.ok (PyVal.obj 9), fun a => [(a.mod_name, PyVal.obj 9)]⟩
        [⟨"alpha", 0, 0, [], -1⟩] ⟨0, [("pre", PyVal.obj 7)], Slot.real, 0⟩).2.modules ↔
      "alpha" ∈ mkeys ([("pre", PyVal.obj 7)] : Dict)) :=
  unload_restores_registry_keys ⟨[("beta", PyVal.obj 1)], true, false, false⟩ rfl
    ⟨fun _ => Except.ok (PyVal.obj 9), fun a => [(a.mod_name, PyVal.obj 9)]⟩
    [⟨"alpha", 0, 0, [], -1⟩] ⟨0, [("pre", PyVal.obj 7)], Slot.real, 0⟩ "alpha"

/-- C9: if a name already in the pre-activation snapshot is re-registered
with its replacement value by a depth > 0 acquisition, then after
`__exit__` (with `unload_modules` set) the registry still maps it to the
replacement: the key survives unloading, its value is the replacement (not
the original), and in general `__exit__` leaves every snapshot key's entry
untouched — it deletes only keys absent from the snapshot. -/
theorem preexisting_key_keeps_replacement (ic : Importceptor) (rr : RealResolver)
    (a : ImportArgs) (s : St) (pre : List String) (saved : Slot) (v : PyVal)
    (hu : ic.unload_modules = true) (hd : ¬ s.depth = 0)
    (hf : ¬ a.mod_name = "__future__") (hl : a.fromlist = [])
    (hv : lookupStr a.mod_name ic.replacements = some v) (hpre : a.mod_name ∈ pre) :
    (import_handler ic rr a s).1 = Except.ok v ∧
    lookupStr a.mod_name
        (ic_exit ic pre saved (import_handler ic rr a s).2).modules = some v ∧
    a.mod_name ∈ mkeys (ic_exit ic pre saved (import_handler ic rr a s).2).modules ∧
    (∀ t k, k ∈ pre →
        lookupStr k (ic_exit ic pre saved t).modules = lookupStr k t.modules) := by
  obtain ⟨h1, h2, -⟩ := import_handler_deep_bare_some ic rr a s hf hd hl hv
  refine ⟨h1, ?_, ?_, fun t k hk => lookupStr_ic_exit_of_mem_pre ic pre saved t hk⟩
  · rw [lookupStr_ic_exit_of_mem_pre ic pre saved _ hpre, h2, lookupStr_setAttr_self]
  · rw [mem_mkeys_ic_exit _ _ _ _ hu, h2]
    exact ⟨(mem_mkeys_setAttr _ _ _ _).2 (Or.inl rfl), hpre⟩

/-- C9 witness: `"dep"` is in the snapshot with original value `obj 8`; a
depth-2 acquisition re-registers it as the replacement `obj 3`; after exit
the registry maps `"dep"` to `obj 3`. -/
theorem preexisting_key_keeps_replacement_witness :
    lookupStr "dep"
        (ic_exit ⟨[("dep", PyVal.obj 3)], true, false, false⟩ ["dep"] Slot.real
          (import_handler ⟨[("dep", PyVal.obj 3)], true, false, false⟩
            ⟨fun _ => Except.ok (PyVal.obj 9), fun _ => []⟩
            ⟨"dep", 0, 0, [], -1⟩
            ⟨2, [("dep", PyVal.obj 8)], Slot.handler, 0⟩).2).modules =
      some (PyVal.obj 3) :=
  (preexisting_key_keeps_replacement ⟨[("dep", PyVal.obj 3)], true, false, false⟩
    ⟨fun _ => Except.ok (PyVal.obj 9), fun _ => []⟩
    ⟨"dep", 0, 0, [], -1⟩ ⟨2, [("dep", PyVal.obj 8)], Slot.handler, 0⟩
    ["dep"] Slot.real (PyVal.obj 3) rfl (by decide) (by decide) rfl rfl
    (List.mem_singleton.mpr rfl)).2.1

/-- C10: the deferred-attribute copy loop writes attributes onto the
synthesized stand-in strictly left to right: if the deferred list is
`pre ++ n :: post` where every name in `pre` resolves on the base value and
`n` does not, the loop stops with `AttributeError` for `n`, the stand-in
dict holding exactly the initial entries updated with every `pre` attribute
in order, and nothing from `post`. -/
theorem deferred_copy_left_to_right (base : PyVal) (d : Dict)
    (pre : List (String × PyVal)) (n : String) (post : List String)
    (hpre : ∀ p ∈ pre, getattrPy base p.1 = some p.2)
    (hn : getattrPy base n = none) :
    bunchUpdateGetattr base d (pre.map Prod.fst ++ n :: post) =
      (pre.foldl (fun acc p => setAttr acc p.1 p.2) d,
       some (PyErr.attributeError n)) := by
  induction pre generalizing d with
  | nil => simp [bunchUpdateGetattr, hn]
  | cons p rest ih =>
      have hp : getattrPy base p.1 = some p.2 := hpre p (List.mem_cons_self _ _)
      have hrest : ∀ q ∈ rest, getattrPy base q.1 = some q.2 :=
        fun q hq => hpre q (List.mem_cons_of_mem _ hq)
      simp only [List.map_cons, List.cons_append, bunchUpdateGetattr, hp,
        List.foldl_cons]
      exact ih (setAttr d p.1 p.2) hrest

/-- C10 witness: copying `["a", "b", "c"]` from a base that has `a` but not
`b` stops at `b` with the stand-in holding the explicit entry and `a`
only. -/
theorem deferred_copy_left_to_right_witness :
    bunchUpdateGetattr (PyVal.bunch [("a", PyVal.obj 1)]) [("e", PyVal.obj 0)]
        ([("a", PyVal.obj 1)].map Prod.fst ++ "b" :: ["c"]) =
      ([("a", PyVal.obj 1)].foldl (fun acc p => setAttr acc p.1 p.2)
        [("e", PyVal.obj 0)], some (PyErr.attributeError "b")) :=
  deferred_copy_left_to_right (PyVal.bunch [("a", PyVal.obj 1)]) [("e", PyVal.obj 0)]
    [("a", PyVal.obj 1)] "b" ["c"]
    (fun p hp => by rw [List.mem_singleton.mp hp]; rfl) rfl

/-- C8: during selective-attribute resolution at depth > 0, if a deferred
attribute (one with no fully qualified replacement) is missing from the
base value obtained by bare-name resolution, the whole call fails with the
`AttributeNotFound` error (`AttributeError` from `getattr`), which the hook
propagates to the caller — it is never swallowed or replaced by a
default. -/
theorem missing_deferred_attribute_raises (ic : Importceptor) (rr : RealResolver)
    (a : ImportArgs) (s : St) (M : PyVal) (n : String)
    (hd : ¬ s.depth = 0) (hf : ¬ a.mod_name = "__future__")
    (hn : n ∈ a.fromlist)
    (hq : lookupStr (a.mod_name ++ "." ++ n) ic.replacements = none)
    (hbase : lookupStr a.mod_name ic.replacements = some M)
    (hmiss : getattrPy M n = none) :
    ∃ m, getattrPy M m = none ∧
      (import_handler ic rr a s).1 = Except.error (PyErr.attributeError m) := by
  have hfl : a.fromlist ≠ [] := by
    intro h
    rw [h] at hn
    cases hn
  have hdef : n ∈ piwfl_deferred ic a := mem_piwfl_deferred ic a hn hq
  obtain ⟨m, hm, hupd⟩ := bunchUpdateGetattr_fails M (piwfl_deferred ic a)
    (piwfl_fakeInit ic a) ⟨n, hdef, hmiss⟩
  refine ⟨m, hm, ?_⟩
  rw [import_handler_fst_deep ic rr a s hf hd, piwr_fst, if_pos hfl]
  rw [piwfl_of_base_some ic rr a _ hbase]
  rcases hb : bunchUpdateGetattr M (piwfl_fakeInit ic a) (piwfl_deferred ic a)
    with ⟨d0, oe⟩
  rw [hb] at hupd
  simp only at hupd
  rw [hupd]

/-- C8 witness: `from alpha import w` at depth 1 with `R = {"alpha": Y}`
where `Y` lacks `w` fails with the attribute error for `w`. -/
theorem missing_deferred_attribute_raises_witness :
    (import_handler ⟨[("alpha", PyVal.bunch [("z", PyVal.obj 2)])], true, false, false⟩
        ⟨fun _ => Except.ok (PyVal.obj 9), fun _ => []⟩
        ⟨"alpha", 0, 0, ["w"], -1⟩ ⟨1, [], Slot.handler, 0⟩).1 =
      Except.error (PyErr.attributeError "w") := by
  obtain ⟨m, hm, hres⟩ := missing_deferred_attribute_raises
    ⟨[("alpha", PyVal.bunch [("z", PyVal.obj 2)])], true, false, false⟩
    ⟨fun _ => Except.ok (PyVal.obj 9), fun _ => []⟩
    ⟨"alpha", 0, 0, ["w"], -1⟩ ⟨1, [], Slot.handler, 0⟩
    (PyVal.bunch [("z", PyVal.obj 2)]) "w"
    (by decide) (by decide) (List.mem_singleton.mpr rfl) rfl rfl rfl
  have heval :
      (import_handler ⟨[("alpha", PyVal.bunch [("z", PyVal.obj 2)])], true, false, false⟩
        ⟨fun _ => Except.ok (PyVal.obj 9), fun _ => []⟩
        ⟨"alpha", 0, 0, ["w"], -1⟩ ⟨1, [], Slot.handler, 0⟩).1 =
      Except.error (PyErr.attributeError "w") := rfl
  have h2 := hres.symm.trans heval
  injection h2 with h3

/-- C3: selective-attribute precedence at depth > 0: with both
`"alpha.x" → X` and `"alpha" → Y` in the mapping, requesting `x` and `z`
yields a stand-in whose `x` is `X` (the fully qualified entry wins) and
whose `z` is `Y`'s `z` (the bare entry supplies deferred attributes), and
the real importer is never called (the bare entry dominates it). -/
theorem selective_attribute_precedence (ic : Importceptor) (rr : RealResolver)
    (a : ImportArgs) (s : St) (ax az : String) (X Y Z : PyVal)
    (hd : ¬ s.depth = 0) (hf : ¬ a.mod_name = "__future__")
    (hfl : a.fromlist = [ax, az]) (hne : ¬ ax = az)
    (hqx : lookupStr (a.mod_name ++ "." ++ ax) ic.replacements = some X)
    (hqz : lookupStr (a.mod_name ++ "." ++ az) ic.replacements = none)
    (hbare : lookupStr a.mod_name ic.replacements = some Y)
    (hZ : getattrPy Y az = some Z) :
    (import_handler ic rr a s).1 = Except.ok (PyVal.bunch [(ax, X), (az, Z)]) ∧
    getattrPy (PyVal.bunch [(ax, X), (az, Z)]) ax = some X ∧
    getattrPy (PyVal.bunch [(ax, X), (az, Z)]) az = some Z ∧
    (import_handler ic rr a s).2.realCalls = s.realCalls := by
  have hfln : a.fromlist ≠ [] := by
    rw [hfl]
    exact List.cons_ne_nil ax [az]
  have hfI : piwfl_fakeInit ic a = [(ax, X)] := by
    unfold piwfl_fakeInit piwfl_names
    rw [hfl]
    simp [hqx, hqz]
  have hdefer : piwfl_deferred ic a = [az] := by
    unfold piwfl_deferred piwfl_names
    rw [hfl]
    simp [hqx, hqz]
  have hupd : bunchUpdateGetattr Y (piwfl_fakeInit ic a) (piwfl_deferred ic a) =
      ([(ax, X), (az, Z)], none) := by
    rw [hfI, hdefer]
    simp [bunchUpdateGetattr, hZ, setAttr, hne]
  refine ⟨?_, by simp [getattrPy, lookupStr], by simp [getattrPy, lookupStr, hne], ?_⟩
  · rw [import_handler_fst_deep ic rr a s hf hd, piwr_fst, if_pos hfln]
    rw [piwfl_of_base_some ic rr a _ hbare, hupd]
  · rw [import_handler_realCalls_deep ic rr a s hf hd, piwr_realCalls, if_pos hfln,
      piwfl_snd,
      grfm_some ic rr { a with fromlist := [] } { s with depth := s.depth + 1 } hbare]

/-- C3 witness: the concrete scenario `R = {"alpha.x": X, "alpha": Y}` with
`from alpha import x, z` at depth 1. -/
theorem selective_attribute_precedence_witness :
    (import_handler
        ⟨[("alpha.x", PyVal.obj 1), ("alpha", PyVal.bunch [("z", PyVal.obj 2)])],
          true, false, false⟩
        ⟨fun _ => Except.ok (PyVal.obj 9), fun _ => []⟩
        ⟨"alpha", 0, 0, ["x", "z"], -1⟩ ⟨1, [], Slot.handler, 0⟩).1 =
      Except.ok (PyVal.bunch [("x", PyVal.obj 1), ("z", PyVal.obj 2)]) :=
  (selective_attribute_precedence
    ⟨[("alpha.x", PyVal.obj 1), ("alpha", PyVal.bunch [("z", PyVal.obj 2)])],
      true, false, false⟩
    ⟨fun _ => Except.ok (PyVal.obj 9), fun _ => []⟩
    ⟨"alpha", 0, 0, ["x", "z"], -1⟩ ⟨1, [], Slot.handler, 0⟩
    "x" "z" (PyVal.obj 1) (PyVal.bunch [("z", PyVal.obj 2)]) (PyVal.obj 2)
    (by decide) (by decide) rfl (by decide) rfl rfl rfl rfl).1

theorem piwfl_of_base_none_strict (ic : Importceptor) (rr : RealResolver)
    (a : ImportArgs) (s : St)
    (h : lookupStr a.mod_name ic.replacements = none) (hs : ic.strict = true) :
    process_import_with_from_list ic rr a s =
      (Except.error (.keyError a.mod_name), s) := by
  unfold process_import_with_from_list
  rw [grfm_none_strict ic rr { a with fromlist := [] } s h hs]

theorem piwfl_deferred_eq_nil (ic : Importceptor) (a : ImportArgs)
    (h : ∀ v ∈ a.fromlist,
      (lookupStr (a.mod_name ++ "." ++ v) ic.replacements).isSome = true) :
    piwfl_deferred ic a = [] := by
  unfold piwfl_deferred piwfl_names
  rw [List.map_eq_nil_iff, List.filter_eq_nil_iff]
  intro p hp
  simp only [List.mem_map] at hp
  rcases hp with ⟨v, hv, rfl⟩
  rcases ho : lookupStr (a.mod_name ++ "." ++ v) ic.replacements with _ | w
  · have hsome := h v hv
    rw [ho] at hsome
    cases hsome
  · simp [ho]

/-- C1 counterexample: `from alpha import x` at depth 1 with
`R = {"alpha.x": X}` — every requested attribute has a fully qualified
replacement.  The claim says no bare-name resolution happens and no error
is raised even with `strict=true` and `"alpha"` unmapped; the code still
performs the bare resolution: with `strict=true` it raises the
`StrictReplacementMissing` error (`KeyError "alpha"`), and with
`strict=false` it calls the real importer once. -/
theorem all_attrs_explicit_skips_bare_counterexample :
    (import_handler ⟨[("alpha.x", PyVal.obj 1)], true, true, false⟩
        ⟨fun _ => Except.ok (PyVal.obj 9), fun _ => []⟩
        ⟨"alpha", 0, 0, ["x"], -1⟩ ⟨1, [], Slot.handler, 0⟩).1 =
      Except.error (PyErr.keyError "alpha") ∧
    (import_handler ⟨[("alpha.x", PyVal.obj 1)], true, false, false⟩
        ⟨fun _ => Except.ok (PyVal.obj 9), fun _ => []⟩
        ⟨"alpha", 0, 0, ["x"], -1⟩ ⟨1, [], Slot.handler, 0⟩).2.realCalls = 1 :=
  ⟨rfl, rfl⟩

/-- C1 amended: for a selective-attribute resolution at depth > 0 in which
every requested attribute has a fully qualified replacement, the explicit
attributes are taken from the mapping, but the bare-name resolution of the
module is still performed exactly once (with an empty attribute list): if
the bare name is mapped, the stand-in is returned and the real importer is
not called; if it is unmapped and `strict` is set, the call raises
`StrictReplacementMissing` (`KeyError`); if it is unmapped and `strict` is
not set, the real importer is called once. -/
theorem all_attrs_explicit_still_resolves_bare (ic : Importceptor)
    (rr : RealResolver) (a : ImportArgs) (s : St)
    (hd : ¬ s.depth = 0) (hf : ¬ a.mod_name = "__future__")
    (hfl : a.fromlist ≠ [])
    (hall : ∀ v ∈ a.fromlist,
      (lookupStr (a.mod_name ++ "." ++ v) ic.replacements).isSome = true) :
    (∀ M, lookupStr a.mod_name ic.replacements = some M →
        (import_handler ic rr a s).1 =
          Except.ok (PyVal.bunch (piwfl_fakeInit ic a)) ∧
        (import_handler ic rr a s).2.realCalls = s.realCalls) ∧
    (lookupStr a.mod_name ic.replacements = none → ic.strict = true →
        (import_handler ic rr a s).1 = Except.error (.keyError a.mod_name) ∧
        (import_handler ic rr a s).2.realCalls = s.realCalls) ∧
    (lookupStr a.mod_name ic.replacements = none → ic.strict = false →
        (import_handler ic rr a s).2.realCalls = s.realCalls + 1) := by
  have hnil : piwfl_deferred ic a = [] := piwfl_deferred_eq_nil ic a hall
  refine ⟨fun M hM => ⟨?_, ?_⟩, fun hM hs => ⟨?_, ?_⟩, fun hM hs => ?_⟩
  · rw [import_handler_fst_deep ic rr a s hf hd, piwr_fst, if_pos hfl,
      piwfl_of_base_some ic rr a _ hM, hnil]
    rfl
  · rw [import_handler_realCalls_deep ic rr a s hf hd, piwr_realCalls, if_pos hfl,
      piwfl_snd,
      grfm_some ic rr { a with fromlist := [] } { s with depth := s.depth + 1 } hM]
  · rw [import_handler_fst_deep ic rr a s hf hd, piwr_fst, if_pos hfl,
      piwfl_of_base_none_strict ic rr a _ hM hs]
  · rw [import_handler_realCalls_deep ic rr a s hf hd, piwr_realCalls, if_pos hfl,
      piwfl_snd,
      grfm_none_strict ic rr { a with fromlist := [] }
        { s with depth := s.depth + 1 } hM hs]
  · rw [import_handler_realCalls_deep ic rr a s hf hd, piwr_realCalls, if_pos hfl,
      piwfl_snd,
      grfm_none_fallback ic rr { a with fromlist := [] }
        { s with depth := s.depth + 1 } hM hs,
      callReal_realCalls]

/-- C1 (amended) witness: `from alpha import x` at depth 1 with
`R = {"alpha.x": X, "alpha": Y}` returns the stand-in built from the
explicit attributes and performs no real-importer call, the bare name being
mapped. -/
theorem all_attrs_explicit_still_resolves_bare_witness :
    (import_handler
        ⟨[("alpha.x", PyVal.obj 1), ("alpha", PyVal.obj 2)], true, false, false⟩
        ⟨fun _ => Except.ok (PyVal.obj 9), fun _ => []⟩
        ⟨"alpha", 0, 0, ["x"], -1⟩ ⟨1, [], Slot.handler, 0⟩).1 =
      Except.ok (PyVal.bunch (piwfl_fakeInit
        ⟨[("alpha.x", PyVal.obj 1), ("alpha", PyVal.obj 2)], true, false, false⟩
        ⟨"alpha", 0, 0, ["x"], -1⟩)) :=
  ((all_attrs_explicit_still_resolves_bare
    ⟨[("alpha.x", PyVal.obj 1), ("alpha", PyVal.obj 2)], true, false, false⟩
    ⟨fun _ => Except.ok (PyVal.obj 9), fun _ => []⟩
    ⟨"alpha", 0, 0, ["x"], -1⟩ ⟨1, [], Slot.handler, 0⟩
    (by decide) (by decide) (by decide)
    (by intro v hv; rw [List.mem_singleton.mp hv]; rfl)).1
    (PyVal.obj 2) rfl).1

/-- C7 witness: at a concrete depth-1 state the raising dispatch (the
mapping is empty and strict, so the acquisition errors) still restores the
depth, which stays non-negative, and a concrete activation ends at
depth 0. -/
theorem depth_counter_matched_witness :
    (import_handler ⟨[], true, true, false⟩
        ⟨fun _ => Except.ok (PyVal.obj 9), fun _ => []⟩
        ⟨"alpha", 0, 0, [], -1⟩ ⟨1, [], Slot.handler, 0⟩).2.depth = 1 ∧
    (0 : Int) ≤ (import_handler ⟨[], true, true, false⟩
        ⟨fun _ => Except.ok (PyVal.obj 9), fun _ => []⟩
        ⟨"alpha", 0, 0, [], -1⟩ ⟨1, [], Slot.handler, 0⟩).2.depth ∧
    (activation ⟨[], true, true, false⟩
        ⟨fun _ => Except.ok (PyVal.obj 9), fun _ => []⟩
        [⟨"alpha", 0, 0, [], -1⟩] ⟨5, [], Slot.real, 0⟩).2.depth = 0 :=
  ⟨(depth_counter_matched ⟨[], true, true, false⟩
      ⟨fun _ => Except.ok (PyVal.obj 9), fun _ => []⟩).1
      ⟨"alpha", 0, 0, [], -1⟩ ⟨1, [], Slot.handler, 0⟩,
   (depth_counter_matched ⟨[], true, true, false⟩
      ⟨fun _ => Except.ok (PyVal.obj 9), fun _ => []⟩).2.2.2
      ⟨"alpha", 0, 0, [], -1⟩ ⟨1, [], Slot.handler, 0⟩ (by decide),
   (depth_counter_matched ⟨[], true, true, false⟩
      ⟨fun _ => Except.ok (PyVal.obj 9), fun _ => []⟩).2.2.1
      [⟨"alpha", 0, 0, [], -1⟩] ⟨5, [], Slot.real, 0⟩⟩
